import Mathlib

/- Verification of the geometry / feature-collection module (pysal/cg/collection.py):
   geometry variants with eager bounding-box computation, the closed geometry
   dispatcher, and the GeoJSON-backed FeatureCollection with idVariable
   indexing, query operations and the save/load round trip.

   Numeric coordinates are idealised as rationals; the float infinities used
   as fold seeds become the top and bottom elements of `WithBot (WithTop ℚ)`.
   Raising Python code is embedded with `Except`: KeyError on the dispatcher
   is `Err.unknownGeometryType`, ValueError/TypeError inside a bbox build is
   `Err.buildError`, a properties KeyError is `Err.missingPropertyKey`, the
   `list.index` ValueError is `Err.valueNotFound`, and reading the
   never-assigned idVariable slot is `Err.attributeError`. -/

namespace Collection

/-- A 2-D coordinate pair. -/
abbrev Pt := ℚ × ℚ

/-- A finite bounding box (minx, miny, maxx, maxy), as produced by `ring_bbox`. -/
abbrev Box := ℚ × ℚ × ℚ × ℚ

/-- Extended coordinate values: rationals together with bottom (-infinity) and
top (+infinity), modelling the float infinities used as accumulator seeds. -/
abbrev XRat := WithBot (WithTop ℚ)

/-- A bounding box whose components may be infinite. -/
abbrev XBox := XRat × XRat × XRat × XRat

/-- Embed a finite coordinate into the extended values. -/
def qx (q : ℚ) : XRat := ((q : WithTop ℚ) : XRat)

/-- Running minimum of a list seeded with an initial value (models `min(xs)`
over a nonempty list, seeded with its head). -/
def foldMin (x : ℚ) : List ℚ → ℚ
  | [] => x
  | a :: as => foldMin (min x a) as

/-- Running maximum of a list seeded with an initial value (models `max(xs)`
over a nonempty list, seeded with its head). -/
def foldMax (x : ℚ) : List ℚ → ℚ
  | [] => x
  | a :: as => foldMax (max x a) as

/-- Source `ring_bbox(ring)`: `(min(xs), min(ys), max(xs), max(ys))`.  Python's
`min` and `max` raise ValueError on an empty sequence; that case is `none`. -/
def ring_bbox : List Pt → Option Box
  | [] => none
  | c :: cs =>
      some (foldMin c.1 (cs.map Prod.fst), foldMin c.2 (cs.map Prod.snd),
            foldMax c.1 (cs.map Prod.fst), foldMax c.2 (cs.map Prod.snd))

/-- Source `MultiPoint.build_bbox`: componentwise minimum and maximum over all
point tuples (`np.array(points).min(axis=0)` and `.max(axis=0)`, concatenated),
in the 2-D case; numpy raises on an empty sequence of points. -/
def multipoint_bbox : List Pt → Option Box
  | [] => none
  | c :: cs =>
      some (foldMin c.1 (cs.map Prod.fst), foldMin c.2 (cs.map Prod.snd),
            foldMax c.1 (cs.map Prod.fst), foldMax c.2 (cs.map Prod.snd))

/-- The accumulator seed `(+inf, +inf, -inf, -inf)` of the union folds. -/
def initXBox : XBox := (⊤, ⊤, ⊥, ⊥)

/-- One step of the union fold: `x0 = min(l, x0); y0 = min(b, y0);
x1 = max(r, x1); y1 = max(t, y1)`. -/
def unionStep (acc : XBox) (b : Box) : XBox :=
  (min (qx b.1) acc.1, min (qx b.2.1) acc.2.1,
   max (qx b.2.2.1) acc.2.2.1, max (qx b.2.2.2) acc.2.2.2)

/-- The ring loop shared by `Polygon.build_bbox`, `MultiLineString.build_bbox`
(whose member LineStrings compute exactly `ring_bbox`) and the inner loop of
`MultiPolygon.build_bbox`: fold each ring's box into the running accumulator,
collecting the per-ring boxes in order; `none` when some ring is empty. -/
def ringsFold : List (List Pt) → XBox → Option (XBox × List Box)
  | [], acc => some (acc, [])
  | ring :: rest, acc =>
      match ring_bbox ring with
      | none => none
      | some b =>
          match ringsFold rest (unionStep acc b) with
          | none => none
          | some (r, bs) => some (r, b :: bs)

/-- Outer loop of `MultiPolygon.build_bbox`: the accumulator is threaded
through every polygon and the per-polygon lists of ring boxes are collected. -/
def mpFold : List (List (List Pt)) → XBox → Option (XBox × List (List Box))
  | [], acc => some (acc, [])
  | poly :: rest, acc =>
      match ringsFold poly acc with
      | none => none
      | some (acc2, pbs) =>
          match mpFold rest acc2 with
          | none => none
          | some (r, bss) => some (r, pbs :: bss)

/-- Coordinate payloads by nesting depth: a single pair (Point), a sequence of
pairs (MultiPoint, LineString), a doubly nested sequence (Polygon rings,
MultiLineString members) and a triply nested one (MultiPolygon). -/
inductive CoordPayload where
  | c0 (c : Pt)
  | c1 (cs : List Pt)
  | c2 (css : List (List Pt))
  | c3 (csss : List (List (List Pt)))
deriving DecidableEq

/-- The stored `bbox` attribute: Point keeps its raw coordinates value,
LineString and MultiPoint store a finite 4-box, and the union-fold variants
store a possibly infinite 4-box. -/
inductive BBoxV where
  | rawB (c : CoordPayload)
  | finB (b : Box)
  | xB (b : XBox)
deriving DecidableEq

/-- The auxiliary `bboxes` attribute set by Polygon and MultiPolygon. -/
inductive AuxBoxes where
  | noneA
  | polyA (bs : List Box)
  | mpolyA (bss : List (List Box))
deriving DecidableEq

/-- Errors of the embedded operations (see the header comment for the mapping
to the Python exception at each raise site). -/
inductive Err where
  | unknownGeometryType (tag : String)
  | buildError
  | missingPropertyKey
  | valueNotFound
  | attributeError
deriving DecidableEq

/-- A constructed geometry object: its `type` tag, its coordinates, the
eagerly computed `bbox`, and the auxiliary `bboxes` data. -/
structure GeomObj where
  gtype : String
  coords : CoordPayload
  bbox : BBoxV
  bboxes : AuxBoxes
deriving DecidableEq

/-- Source `geometryDispatcher[tag](coordinates)` followed by the eager bbox
computation of `Geometry.__init__`.  A tag outside the six registered ones is
the dispatcher KeyError; a payload whose shape does not fit the variant, or an
empty ring reaching `ring_bbox`, surfaces as `buildError`.  Point performs no
computation at all: its bbox is the raw coordinates value, whatever its shape. -/
def mkGeometry (tag : String) (p : CoordPayload) : Except Err GeomObj :=
  if tag = "Point" then
    .ok ⟨"Point", p, .rawB p, .noneA⟩
  else if tag = "Polygon" then
    match p with
    | .c2 rings =>
        match ringsFold rings initXBox with
        | none => .error .buildError
        | some (r, bs) => .ok ⟨"Polygon", p, .xB r, .polyA bs⟩
    | _ => .error .buildError
  else if tag = "LineString" then
    match p with
    | .c1 cs =>
        match ring_bbox cs with
        | none => .error .buildError
        | some b => .ok ⟨"LineString", p, .finB b, .noneA⟩
    | _ => .error .buildError
  else if tag = "MultiPoint" then
    match p with
    | .c1 cs =>
        match multipoint_bbox cs with
        | none => .error .buildError
        | some b => .ok ⟨"MultiPoint", p, .finB b, .noneA⟩
    | _ => .error .buildError
  else if tag = "MultiLineString" then
    match p with
    | .c2 css =>
        match ringsFold css initXBox with
        | none => .error .buildError
        | some (r, _) => .ok ⟨"MultiLineString", p, .xB r, .noneA⟩
    | _ => .error .buildError
  else if tag = "MultiPolygon" then
    match p with
    | .c3 ps =>
        match mpFold ps initXBox with
        | none => .error .buildError
        | some (r, bss) => .ok ⟨"MultiPolygon", p, .xB r, .mpolyA bss⟩
    | _ => .error .buildError
  else
    .error (.unknownGeometryType tag)

/-- Property values: the JSON scalar model carried by feature properties. -/
inductive PropVal where
  | pnull
  | pbool (b : Bool)
  | pnum (q : ℚ)
  | pstr (s : String)
deriving DecidableEq

/-- One feature: a geometry object plus its properties mapping. -/
structure Feature where
  geometry : GeomObj
  props : List (String × PropVal)
deriving DecidableEq

/-- The collection state.  `idVar = none` models the private slot never having
been assigned (reading it is an AttributeError), `some none` a stored Python
None, and `some (some k)` a stored key name. -/
structure FeatureCollection where
  n_features : ℕ
  features : List Feature
  idVar : Option (Option String)
deriving DecidableEq

/-- One raw input/output feature record: geometry type tag, coordinate
payload, properties, and an optional raw bbox entry — the loader never reads
such an entry and the saver never writes one. -/
structure Record where
  gtype : String
  coords : CoordPayload
  props : List (String × PropVal)
  rawBbox : Option (List ℚ)
deriving DecidableEq

/-- Left-to-right effectful map: a Python list comprehension whose body may
raise — the first raise aborts the whole comprehension. -/
def mapE {α β : Type} (f : α → Except Err β) : List α → Except Err (List β)
  | [] => .ok []
  | a :: as =>
      match f a with
      | .error e => .error e
      | .ok b =>
          match mapE f as with
          | .error e => .error e
          | .ok bs => .ok (b :: bs)

/-- First half of `FeatureCollection.__init__`: build each feature's geometry
through the dispatcher, in input order, pairing it with the record's
properties; the first failure aborts construction. -/
def buildFeatures : List Record → Except Err (List Feature)
  | [] => .ok []
  | r :: rest =>
      match mkGeometry r.gtype r.coords with
      | .error e => .error e
      | .ok g =>
          match buildFeatures rest with
          | .error e => .error e
          | .ok fs => .ok (⟨g, r.props⟩ :: fs)

/-- Dictionary access `self.features[i]` (KeyError when absent). -/
def listGetE {α : Type} (l : List α) (i : ℕ) : Except Err α :=
  match l.get? i with
  | some a => .ok a
  | none => .error .missingPropertyKey

/-- Properties access `f[p]` (KeyError when the key is absent). -/
def propGet (f : Feature) (k : String) : Except Err PropVal :=
  match f.props.lookup k with
  | some v => .ok v
  | none => .error .missingPropertyKey

/-- Source `getPropertiesAsLists`: one row per feature id in id order,
projecting the requested property keys. -/
def getPropertiesAsLists (fc : FeatureCollection) (keys : List String) :
    Except Err (List (List PropVal)) :=
  mapE (fun i => Except.bind (listGetE fc.features i)
      (fun f => mapE (propGet f) keys))
    (List.range fc.n_features)

/-- Source `is_unique`: `np.unique` counts the distinct values of the column,
and the column is unique when that count equals its length. -/
def is_unique (values : List PropVal) : Bool :=
  values.dedup.length == values.length

/-- The flattened one-key projection `getPropertiesAsArray([k])` (an n-by-1
array holding one property value per feature, in id order) that both the
idVariable setter and `getIdVariableOrder` materialise. -/
def propColumn (fc : FeatureCollection) (k : String) : Except Err (List PropVal) :=
  match getPropertiesAsLists fc [k] with
  | .error e => .error e
  | .ok rows => .ok rows.flatten

/-- Source idVariable setter: None is stored; a uniquely-valued key is stored;
a key with duplicated values only warns (the returned flag) and leaves the
whole state untouched; a key missing from some feature raises KeyError out of
the column projection. -/
def setIdVariable (fc : FeatureCollection) (p : Option String) :
    Except Err (FeatureCollection × Bool) :=
  match p with
  | none => .ok (⟨fc.n_features, fc.features, some none⟩, false)
  | some k =>
      match propColumn fc k with
      | .error e => .error e
      | .ok vals =>
          if is_unique vals then
            .ok (⟨fc.n_features, fc.features, some (some k)⟩, false)
          else
            .ok (fc, true)

/-- Source `FeatureCollection.__init__`: build all features, then run the
idVariable setter on the fresh collection whose private slot is still
unassigned. -/
def featureCollectionInit (records : List Record) (idVariable : Option String) :
    Except Err FeatureCollection :=
  match buildFeatures records with
  | .error e => .error e
  | .ok fs =>
      match setIdVariable ⟨fs.length, fs, none⟩ idVariable with
      | .error e => .error e
      | .ok (fc, _) => .ok fc

/-- Source idVariable getter: AttributeError when the private slot was never
assigned. -/
def getIdVariable (fc : FeatureCollection) : Except Err (Option String) :=
  match fc.idVar with
  | none => .error .attributeError
  | some v => .ok v

/-- Source `getIdVariableOrder().flatten().tolist()`: the idVariable column in
id order.  A stored None fails the per-feature properties lookup on the first
feature (KeyError); with no features the projection is empty. -/
def getIdVariableOrder (fc : FeatureCollection) : Except Err (List PropVal) :=
  match fc.idVar with
  | none => .error .attributeError
  | some none => if fc.n_features = 0 then .ok [] else .error .missingPropertyKey
  | some (some k) => propColumn fc k

/-- Python `list.index` as a total function: position of the first occurrence,
if any. -/
def listIndex (v : PropVal) : List PropVal → Option ℕ
  | [] => none
  | x :: xs => if x = v then some 0 else (listIndex v xs).map (· + 1)

/-- One lookup `idOrder.index(v)` (ValueError when the value is absent). -/
def indexIn (col : List PropVal) (v : PropVal) : Except Err ℕ :=
  match listIndex v col with
  | some i => .ok i
  | none => .error .valueNotFound

/-- Source `getFeatureIds`: materialise the idVariable column once, then look
up the first-occurrence position of each requested value. -/
def getFeatureIds (fc : FeatureCollection) (args : List PropVal) :
    Except Err (List ℕ) :=
  match getIdVariableOrder fc with
  | .error e => .error e
  | .ok idOrder => mapE (indexIn idOrder) args

/-- Python truthiness of the optional `args` parameter: None and the empty
list are both falsy. -/
def truthy : Option (List PropVal) → Bool
  | none => false
  | some l => !l.isEmpty

/-- Source `getFeatures`: resolve ids through `getFeatureIds` when `args` is
truthy, otherwise enumerate `xrange(n_features)`. -/
def getFeatures (fc : FeatureCollection) (args : Option (List PropVal)) :
    Except Err (List Feature) :=
  if truthy args then
    match getFeatureIds fc (args.getD []) with
    | .error e => .error e
    | .ok ids => mapE (listGetE fc.features) ids
  else
    mapE (listGetE fc.features) (List.range fc.n_features)

/-- Source `getGeometries`: same id resolution as `getFeatures`, projecting
each feature to its geometry. -/
def getGeometries (fc : FeatureCollection) (args : Option (List PropVal)) :
    Except Err (List GeomObj) :=
  if truthy args then
    match getFeatureIds fc (args.getD []) with
    | .error e => .error e
    | .ok ids =>
        mapE (fun i => Except.bind (listGetE fc.features i)
          (fun f => .ok f.geometry)) ids
  else
    mapE (fun i => Except.bind (listGetE fc.features i)
      (fun f => .ok f.geometry)) (List.range fc.n_features)

/-- Source `saveAsGeoJson`: each feature re-emits its geometry's type tag and
coordinates and its stored properties; no bbox entry is ever written. -/
def saveAsGeoJson (fc : FeatureCollection) : List Record :=
  fc.features.map (fun f => ⟨f.geometry.gtype, f.geometry.coords, f.props, none⟩)

/-- Every coordinate pair reachable inside a payload. -/
def pairsOf : CoordPayload → List Pt
  | .c0 c => [c]
  | .c1 cs => cs
  | .c2 css => css.flatten
  | .c3 csss => (csss.map List.flatten).flatten

/-- Enclosure predicate of the bbox invariant: each reachable pair lies
between the lower and the upper bounds componentwise (trivial for the raw
Point form, which carries no bounds). -/
def inBBoxV (v : BBoxV) (p : Pt) : Prop :=
  match v with
  | .rawB _ => True
  | .finB b => b.1 ≤ p.1 ∧ p.1 ≤ b.2.2.1 ∧ b.2.1 ≤ p.2 ∧ p.2 ≤ b.2.2.2
  | .xB b => b.1 ≤ qx p.1 ∧ qx p.1 ≤ b.2.2.1 ∧ b.2.1 ≤ qx p.2 ∧ qx p.2 ≤ b.2.2.2

/-- The closed set of dispatcher tags. -/
abbrev knownTag (t : String) : Prop :=
  t = "Point" ∨ t = "Polygon" ∨ t = "LineString" ∨ t = "MultiPoint" ∨
    t = "MultiLineString" ∨ t = "MultiPolygon"

/-- Option-valued map, first failure wins: which rings have a box. -/
def mapO {α β : Type} (f : α → Option β) : List α → Option (List β)
  | [] => some []
  | a :: as =>
      match f a with
      | none => none
      | some b =>
          match mapO f as with
          | none => none
          | some bs => some (b :: bs)

/-- Specification-side componentwise union of a list of finite boxes: minimum
of the minima and maximum of the maxima, from the infinite seed. -/
def unionOfBoxes (bs : List Box) : XBox :=
  (bs.foldl (fun a b => min (qx b.1) a) ⊤,
   bs.foldl (fun a b => min (qx b.2.1) a) ⊤,
   bs.foldl (fun a b => max (qx b.2.2.1) a) ⊥,
   bs.foldl (fun a b => max (qx b.2.2.2) a) ⊥)

/-- Enclosure in a possibly infinite box, the 4-tuple order conditions of the
bbox invariant. -/
def inXBox (r : XBox) (p : Pt) : Prop :=
  r.1 ≤ qx p.1 ∧ qx p.1 ≤ r.2.2.1 ∧ r.2.1 ≤ qx p.2 ∧ qx p.2 ≤ r.2.2.2

/-- The accumulator order of the union fold: lower bounds only shrink, upper
bounds only grow. -/
def tighter (r acc : XBox) : Prop :=
  r.1 ≤ acc.1 ∧ r.2.1 ≤ acc.2.1 ∧ acc.2.2.1 ≤ r.2.2.1 ∧ acc.2.2.2 ≤ r.2.2.2

theorem tighter_refl (acc : XBox) : tighter acc acc :=
  ⟨le_refl _, le_refl _, le_refl _, le_refl _⟩

theorem tighter_trans {a b c : XBox} (h1 : tighter a b) (h2 : tighter b c) :
    tighter a c :=
  ⟨le_trans h1.1 h2.1, le_trans h1.2.1 h2.2.1,
   le_trans h2.2.2.1 h1.2.2.1, le_trans h2.2.2.2 h1.2.2.2⟩

theorem unionStep_tighter (acc : XBox) (b : Box) : tighter (unionStep acc b) acc :=
  ⟨min_le_right _ _, min_le_right _ _, le_max_right _ _, le_max_right _ _⟩

theorem foldMin_le_init : ∀ (xs : List ℚ) (x : ℚ), foldMin x xs ≤ x
  | [], _ => le_refl _
  | a :: as, x => le_trans (foldMin_le_init as (min x a)) (min_le_left x a)

theorem foldMin_le_mem : ∀ (xs : List ℚ) (x y : ℚ), y ∈ xs → foldMin x xs ≤ y
  | a :: as, x, y, hy => by
      rcases List.mem_cons.1 hy with h | h
      · subst h
        exact le_trans (foldMin_le_init as (min x y)) (min_le_right x y)
      · exact foldMin_le_mem as (min x a) y h

theorem le_foldMax_init : ∀ (xs : List ℚ) (x : ℚ), x ≤ foldMax x xs
  | [], _ => le_refl _
  | a :: as, x => le_trans (le_max_left x a) (le_foldMax_init as (max x a))

theorem mem_le_foldMax : ∀ (xs : List ℚ) (x y : ℚ), y ∈ xs → y ≤ foldMax x xs
  | a :: as, x, y, hy => by
      rcases List.mem_cons.1 hy with h | h
      · subst h
        exact le_trans (le_max_right x y) (le_foldMax_init as (max x y))
      · exact mem_le_foldMax as (max x a) y h

theorem qx_le_qx {a b : ℚ} : qx a ≤ qx b ↔ a ≤ b := by
  simp [qx]

theorem ring_bbox_bounds {ring : List Pt} {b : Box} (h : ring_bbox ring = some b)
    {p : Pt} (hp : p ∈ ring) :
    b.1 ≤ p.1 ∧ p.1 ≤ b.2.2.1 ∧ b.2.1 ≤ p.2 ∧ p.2 ≤ b.2.2.2 := by
  cases ring with
  | nil => cases hp
  | cons c cs =>
      simp only [ring_bbox, Option.some.injEq] at h
      subst h
      rcases List.mem_cons.1 hp with h | h
      · subst h
        exact ⟨foldMin_le_init _ _, le_foldMax_init _ _,
               foldMin_le_init _ _, le_foldMax_init _ _⟩
      · exact ⟨foldMin_le_mem _ _ _ (List.mem_map_of_mem Prod.fst h),
               mem_le_foldMax _ _ _ (List.mem_map_of_mem Prod.fst h),
               foldMin_le_mem _ _ _ (List.mem_map_of_mem Prod.snd h),
               mem_le_foldMax _ _ _ (List.mem_map_of_mem Prod.snd h)⟩

theorem multipoint_bbox_eq_ring_bbox (cs : List Pt) :
    multipoint_bbox cs = ring_bbox cs := by
  cases cs <;> rfl

/-- A box absorbed into the accumulator encloses every point that its ring
bounds enclose. -/
theorem unionStep_encloses {b : Box} {p : Pt}
    (hb : b.1 ≤ p.1 ∧ p.1 ≤ b.2.2.1 ∧ b.2.1 ≤ p.2 ∧ p.2 ≤ b.2.2.2)
    (acc : XBox) : inXBox (unionStep acc b) p := by
  refine ⟨le_trans (min_le_left _ _) (qx_le_qx.2 hb.1),
          le_trans (qx_le_qx.2 hb.2.1) (le_max_left _ _),
          le_trans (min_le_left _ _) (qx_le_qx.2 hb.2.2.1),
          le_trans (qx_le_qx.2 hb.2.2.2) (le_max_left _ _)⟩

theorem tighter_encloses {r acc : XBox} {p : Pt} (ht : tighter r acc)
    (h : inXBox acc p) : inXBox r p :=
  ⟨le_trans ht.1 h.1, le_trans h.2.1 ht.2.2.1,
   le_trans ht.2.1 h.2.2.1, le_trans h.2.2.2 ht.2.2.2⟩

theorem ringsFold_tighter : ∀ (rs : List (List Pt)) (acc r : XBox) (bs : List Box),
    ringsFold rs acc = some (r, bs) → tighter r acc
  | [], acc, r, bs, h => by
      simp only [ringsFold, Option.some.injEq, Prod.mk.injEq] at h
      rw [← h.1]
      exact tighter_refl acc
  | ring :: rest, acc, r, bs, h => by
      cases hr : ring_bbox ring with
      | none => simp [ringsFold, hr] at h
      | some b =>
          cases hrec : ringsFold rest (unionStep acc b) with
          | none => simp [ringsFold, hr, hrec] at h
          | some pr =>
              obtain ⟨r2, bs2⟩ := pr
              simp only [ringsFold, hr, hrec, Option.some.injEq,
                Prod.mk.injEq] at h
              rw [← h.1]
              exact tighter_trans (ringsFold_tighter rest _ _ _ hrec)
                (unionStep_tighter acc b)

theorem ringsFold_bounds : ∀ (rs : List (List Pt)) (acc r : XBox) (bs : List Box),
    ringsFold rs acc = some (r, bs) →
    ∀ ring ∈ rs, ∀ p ∈ ring, inXBox r p
  | [], _, _, _, _, _, hring, _, _ => absurd hring (List.not_mem_nil _)
  | ring0 :: rest, acc, r, bs, h, ring, hring, p, hp => by
      cases hr : ring_bbox ring0 with
      | none => simp [ringsFold, hr] at h
      | some b =>
          cases hrec : ringsFold rest (unionStep acc b) with
          | none => simp [ringsFold, hr, hrec] at h
          | some pr =>
              obtain ⟨r2, bs2⟩ := pr
              simp only [ringsFold, hr, hrec, Option.some.injEq,
                Prod.mk.injEq] at h
              rcases List.mem_cons.1 hring with hh | hh
              · subst hh
                rw [← h.1]
                exact tighter_encloses (ringsFold_tighter rest _ _ _ hrec)
                  (unionStep_encloses (ring_bbox_bounds hr hp) acc)
              · rw [← h.1]
                exact ringsFold_bounds rest _ _ _ hrec ring hh p hp

theorem mpFold_tighter : ∀ (ps : List (List (List Pt))) (acc r : XBox)
    (bss : List (List Box)), mpFold ps acc = some (r, bss) → tighter r acc
  | [], acc, r, bss, h => by
      simp only [mpFold, Option.some.injEq, Prod.mk.injEq] at h
      rw [← h.1]
      exact tighter_refl acc
  | poly :: rest, acc, r, bss, h => by
      cases hr : ringsFold poly acc with
      | none => simp [mpFold, hr] at h
      | some pr =>
          obtain ⟨acc2, pbs⟩ := pr
          cases hrec : mpFold rest acc2 with
          | none => simp [mpFold, hr, hrec] at h
          | some pr2 =>
              obtain ⟨r2, bss2⟩ := pr2
              simp only [mpFold, hr, hrec, Option.some.injEq,
                Prod.mk.injEq] at h
              rw [← h.1]
              exact tighter_trans (mpFold_tighter rest _ _ _ hrec)
                (ringsFold_tighter poly _ _ _ hr)

theorem mpFold_bounds : ∀ (ps : List (List (List Pt))) (acc r : XBox)
    (bss : List (List Box)), mpFold ps acc = some (r, bss) →
    ∀ poly ∈ ps, ∀ ring ∈ poly, ∀ p ∈ ring, inXBox r p
  | [], _, _, _, _, _, hpoly, _, _, _, _ => absurd hpoly (List.not_mem_nil _)
  | poly0 :: rest, acc, r, bss, h, poly, hpoly, ring, hring, p, hp => by
      cases hr : ringsFold poly0 acc with
      | none => simp [mpFold, hr] at h
      | some pr =>
          obtain ⟨acc2, pbs⟩ := pr
          cases hrec : mpFold rest acc2 with
          | none => simp [mpFold, hr, hrec] at h
          | some pr2 =>
              obtain ⟨r2, bss2⟩ := pr2
              simp only [mpFold, hr, hrec, Option.some.injEq,
                Prod.mk.injEq] at h
              rcases List.mem_cons.1 hpoly with hh | hh
              · subst hh
                rw [← h.1]
                exact tighter_encloses (mpFold_tighter rest _ _ _ hrec)
                  (ringsFold_bounds poly _ _ _ hr ring hring p hp)
              · rw [← h.1]
                exact mpFold_bounds rest _ _ _ hrec poly hh ring hring p hp

theorem ringsFold_flatten : ∀ (rs : List (List Pt)) (acc r : XBox) (bs : List Box),
    ringsFold rs acc = some (r, bs) →
    mapO ring_bbox rs = some bs ∧ r = bs.foldl unionStep acc
  | [], acc, r, bs, h => by
      simp only [ringsFold, Option.some.injEq, Prod.mk.injEq] at h
      rw [← h.1, ← h.2]
      exact ⟨rfl, rfl⟩
  | ring :: rest, acc, r, bs, h => by
      cases hr : ring_bbox ring with
      | none => simp [ringsFold, hr] at h
      | some b =>
          cases hrec : ringsFold rest (unionStep acc b) with
          | none => simp [ringsFold, hr, hrec] at h
          | some pr =>
              obtain ⟨r2, bs2⟩ := pr
              simp only [ringsFold, hr, hrec, Option.some.injEq,
                Prod.mk.injEq] at h
              obtain ⟨ih1, ih2⟩ := ringsFold_flatten rest _ _ _ hrec
              rw [← h.1, ← h.2]
              constructor
              · simp [mapO, hr, ih1]
              · simp only [List.foldl_cons]
                exact ih2

theorem mpFold_flatten : ∀ (ps : List (List (List Pt))) (acc r : XBox)
    (bss : List (List Box)), mpFold ps acc = some (r, bss) →
    mapO (mapO ring_bbox) ps = some bss ∧
      r = bss.flatten.foldl unionStep acc
  | [], acc, r, bss, h => by
      simp only [mpFold, Option.some.injEq, Prod.mk.injEq] at h
      rw [← h.1, ← h.2]
      exact ⟨rfl, rfl⟩
  | poly :: rest, acc, r, bss, h => by
      cases hr : ringsFold poly acc with
      | none => simp [mpFold, hr] at h
      | some pr =>
          obtain ⟨acc2, pbs⟩ := pr
          cases hrec : mpFold rest acc2 with
          | none => simp [mpFold, hr, hrec] at h
          | some pr2 =>
              obtain ⟨r2, bss2⟩ := pr2
              simp only [mpFold, hr, hrec, Option.some.injEq,
                Prod.mk.injEq] at h
              obtain ⟨f1, f2⟩ := ringsFold_flatten poly _ _ _ hr
              obtain ⟨ih1, ih2⟩ := mpFold_flatten rest _ _ _ hrec
              rw [← h.1, ← h.2]
              constructor
              · simp [mapO, f1, ih1]
              · rw [List.flatten_cons, List.foldl_append, ← f2]
                exact ih2

theorem foldl_unionStep_components : ∀ (bs : List Box) (acc : XBox),
    bs.foldl unionStep acc =
      (bs.foldl (fun a b => min (qx b.1) a) acc.1,
       bs.foldl (fun a b => min (qx b.2.1) a) acc.2.1,
       bs.foldl (fun a b => max (qx b.2.2.1) a) acc.2.2.1,
       bs.foldl (fun a b => max (qx b.2.2.2) a) acc.2.2.2)
  | [], _ => rfl
  | b :: bs, acc => by
      simp only [List.foldl_cons]
      exact foldl_unionStep_components bs (unionStep acc b)

theorem foldl_unionStep_initXBox (bs : List Box) :
    bs.foldl unionStep initXBox = unionOfBoxes bs := by
  rw [foldl_unionStep_components]
  rfl

theorem mapE_congr {α β : Type} : ∀ (l : List α) (f g : α → Except Err β),
    (∀ a ∈ l, f a = g a) → mapE f l = mapE g l
  | [], _, _, _ => rfl
  | a :: as, f, g, h => by
      simp only [mapE, h a (List.mem_cons_self a as),
        mapE_congr as f g (fun x hx => h x (List.mem_cons_of_mem a hx))]

theorem mapE_ok_map {α β : Type} (h : α → β) : ∀ (l : List α),
    mapE (fun a => .ok (h a)) l = .ok (l.map h)
  | [] => rfl
  | a :: as => by simp [mapE, mapE_ok_map h as]

theorem mapE_map {α β γ : Type} (f : β → Except Err γ) (g : α → β) :
    ∀ (l : List α), mapE f (l.map g) = mapE (fun a => f (g a)) l
  | [] => rfl
  | a :: as => by
      simp only [List.map_cons, mapE, mapE_map f g as]

theorem mapE_ok_get {α β : Type} : ∀ (l : List α) (f : α → Except Err β)
    (bs : List β), mapE f l = .ok bs →
    ∀ (i : ℕ) (b : β), bs.get? i = some b →
      ∃ a, l.get? i = some a ∧ f a = .ok b
  | [], f, bs, h, i, b, hb => by
      simp only [mapE, Except.ok.injEq] at h
      rw [← h] at hb
      simp at hb
  | a :: as, f, bs, h, i, b, hb => by
      cases hfa : f a with
      | error e => simp [mapE, hfa] at h
      | ok b0 =>
          cases hrec : mapE f as with
          | error e => simp [mapE, hfa, hrec] at h
          | ok bs0 =>
              simp only [mapE, hfa, hrec, Except.ok.injEq] at h
              rw [← h] at hb
              cases i with
              | zero =>
                  simp only [List.get?, Option.some.injEq] at hb
                  exact ⟨a, rfl, by rw [hfa, hb]⟩
              | succ i0 =>
                  exact mapE_ok_get as f bs0 hrec i0 b hb

theorem mapE_ok_length {α β : Type} : ∀ (l : List α) (f : α → Except Err β)
    (bs : List β), mapE f l = .ok bs → bs.length = l.length
  | [], _, bs, h => by
      simp only [mapE, Except.ok.injEq] at h
      rw [← h]
      rfl
  | a :: as, f, bs, h => by
      cases hfa : f a with
      | error e => simp [mapE, hfa] at h
      | ok b0 =>
          cases hrec : mapE f as with
          | error e => simp [mapE, hfa, hrec] at h
          | ok bs0 =>
              simp only [mapE, hfa, hrec, Except.ok.injEq] at h
              rw [← h]
              simp [mapE_ok_length as f bs0 hrec]

theorem listGetE_cons_succ {α : Type} (a : α) (as : List α) (i : ℕ) :
    listGetE (a :: as) (i + 1) = listGetE as i := rfl

theorem mapE_range_bind {α β : Type} : ∀ (l : List α) (g : α → Except Err β),
    mapE (fun i => Except.bind (listGetE l i) g) (List.range l.length) =
      mapE g l
  | [], _ => rfl
  | a :: as, g => by
      rw [List.length_cons, List.range_succ_eq_map]
      have hz : Except.bind (listGetE (a :: as) 0) g = g a := rfl
      have hs : (fun i => Except.bind (listGetE (a :: as) (Nat.succ i)) g)
          = (fun i => Except.bind (listGetE as i) g) := rfl
      cases hga : g a with
      | error e =>
          simp only [mapE, hz, hga]
      | ok b =>
          simp only [mapE, hz, hga, mapE_map]
          rw [show (fun i => Except.bind (listGetE (a :: as) (Nat.succ i)) g)
                = (fun i => Except.bind (listGetE as i) g) from rfl]
          rw [mapE_range_bind as g]

theorem listIndex_none_iff (v : PropVal) : ∀ (l : List PropVal),
    listIndex v l = none ↔ v ∉ l
  | [] => by simp [listIndex]
  | x :: xs => by
      by_cases hx : x = v
      · subst hx
        simp [listIndex]
      · simp only [listIndex, if_neg hx, Option.map_eq_none',
          listIndex_none_iff v xs, List.mem_cons]
        constructor
        · intro h hm
          rcases hm with hm | hm
          · exact hx hm.symm
          · exact h hm
        · intro h hm
          exact h (Or.inr hm)

theorem listIndex_some_of_mem {v : PropVal} {l : List PropVal} (h : v ∈ l) :
    ∃ i, listIndex v l = some i := by
  cases hi : listIndex v l with
  | none => exact absurd h (by rw [← listIndex_none_iff v l]; exact hi)
  | some i => exact ⟨i, rfl⟩

theorem listIndex_get : ∀ (l : List PropVal) (v : PropVal) (i : ℕ),
    listIndex v l = some i → l.get? i = some v
  | [], v, i, h => by simp [listIndex] at h
  | x :: xs, v, i, h => by
      by_cases hx : x = v
      · simp only [listIndex, if_pos hx, Option.some.injEq] at h
        rw [← h]
        simp [hx]
      · simp only [listIndex, if_neg hx] at h
        cases hj : listIndex v xs with
        | none => rw [hj] at h; cases h
        | some j =>
            rw [hj] at h
            simp only [Option.map_some', Option.some.injEq] at h
            rw [← h]
            exact listIndex_get xs v j hj

theorem listIndex_min : ∀ (l : List PropVal) (v : PropVal) (i : ℕ),
    listIndex v l = some i → ∀ j, j < i → l.get? j ≠ some v
  | [], v, i, h, _, _ => by simp [listIndex] at h
  | x :: xs, v, i, h, j, hj => by
      by_cases hx : x = v
      · simp only [listIndex, if_pos hx, Option.some.injEq] at h
        omega
      · simp only [listIndex, if_neg hx] at h
        cases hq : listIndex v xs with
        | none => rw [hq] at h; cases h
        | some q =>
            rw [hq] at h
            simp only [Option.map_some', Option.some.injEq] at h
            cases j with
            | zero =>
                intro heq
                simp only [List.get?, Option.some.injEq] at heq
                exact hx heq
            | succ j0 =>
                have hlt : j0 < q := by omega
                exact listIndex_min xs v q hq j0 hlt

theorem is_unique_iff (l : List PropVal) : is_unique l = true ↔ l.Nodup := by
  unfold is_unique
  rw [beq_iff_eq]
  constructor
  · intro h
    have heq := (List.dedup_sublist l).eq_of_length h
    rw [← heq]
    exact l.nodup_dedup
  · intro h
    rw [List.dedup_eq_self.2 h]

theorem mkGeometry_ok_fields {tag : String} {p : CoordPayload} {g : GeomObj}
    (h : mkGeometry tag p = .ok g) : g.gtype = tag ∧ g.coords = p := by
  unfold mkGeometry at h
  split_ifs at h <;>
    (repeat' split at h) <;>
    first
      | exact Except.noConfusion h
      | (injection h with h2; subst h2; simp_all)

theorem mkGeometry_idem {tag : String} {p : CoordPayload} {g : GeomObj}
    (h : mkGeometry tag p = .ok g) :
    mkGeometry g.gtype g.coords = .ok g := by
  obtain ⟨ht, hc⟩ := mkGeometry_ok_fields h
  rw [ht, hc]
  exact h

theorem buildFeatures_geomOk : ∀ (rs : List Record) (fs : List Feature),
    buildFeatures rs = .ok fs →
    ∀ f ∈ fs, mkGeometry f.geometry.gtype f.geometry.coords = .ok f.geometry
  | [], fs, h, f, hf => by
      simp only [buildFeatures, Except.ok.injEq] at h
      rw [← h] at hf
      cases hf
  | r :: rest, fs, h, f, hf => by
      cases hg : mkGeometry r.gtype r.coords with
      | error e => simp [buildFeatures, hg] at h
      | ok g =>
          cases hrec : buildFeatures rest with
          | error e => simp [buildFeatures, hg, hrec] at h
          | ok fs0 =>
              simp only [buildFeatures, hg, hrec, Except.ok.injEq] at h
              rw [← h] at hf
              rcases List.mem_cons.1 hf with hh | hh
              · subst hh
                exact mkGeometry_idem hg
              · exact buildFeatures_geomOk rest fs0 hrec f hh

theorem buildFeatures_save : ∀ (fs : List Feature),
    (∀ f ∈ fs,
      mkGeometry f.geometry.gtype f.geometry.coords = .ok f.geometry) →
    buildFeatures (fs.map
      (fun f => ⟨f.geometry.gtype, f.geometry.coords, f.props, none⟩)) = .ok fs
  | [], _ => rfl
  | f :: fs, h => by
      have hf := h f (List.mem_cons_self f fs)
      have hrest := buildFeatures_save fs
        (fun x hx => h x (List.mem_cons_of_mem f hx))
      simp only [List.map_cons, buildFeatures, hf, hrest]

theorem setIdVariable_preserves {fc0 : FeatureCollection} {p : Option String}
    {fc1 : FeatureCollection} {w : Bool}
    (h : setIdVariable fc0 p = .ok (fc1, w)) :
    fc1.features = fc0.features ∧ fc1.n_features = fc0.n_features := by
  unfold setIdVariable at h
  cases p with
  | none =>
      simp only [Except.ok.injEq, Prod.mk.injEq] at h
      rw [← h.1]
      exact ⟨rfl, rfl⟩
  | some k =>
      cases hc : propColumn fc0 k with
      | error e => simp [hc] at h
      | ok vals =>
          simp only [hc] at h
          by_cases hu : is_unique vals = true
          · rw [if_pos hu] at h
            simp only [Except.ok.injEq, Prod.mk.injEq] at h
            rw [← h.1]
            exact ⟨rfl, rfl⟩
          · rw [if_neg hu] at h
            simp only [Except.ok.injEq, Prod.mk.injEq] at h
            rw [← h.1]
            exact ⟨rfl, rfl⟩

theorem init_ok_spec {records : List Record} {idv : Option String}
    {fc : FeatureCollection} (h : featureCollectionInit records idv = .ok fc) :
    ∃ fs, buildFeatures records = .ok fs ∧ fc.features = fs ∧
      fc.n_features = fs.length := by
  unfold featureCollectionInit at h
  cases hb : buildFeatures records with
  | error e => rw [hb] at h; exact Except.noConfusion h
  | ok fs =>
      refine ⟨fs, rfl, ?_⟩
      rw [hb] at h
      cases hs : setIdVariable ⟨fs.length, fs, none⟩ idv with
      | error e =>
          simp only [hs] at h
          exact Except.noConfusion h
      | ok pr =>
          obtain ⟨fc2, w⟩ := pr
          simp only [hs, Except.ok.injEq] at h
          obtain ⟨hfeat, hn⟩ := setIdVariable_preserves hs
          rw [← h]
          exact ⟨hfeat, hn⟩

/-- C1: for every non-Point geometry successfully constructed by the
dispatcher, every coordinate pair reachable in its `coordinates` lies within
the computed `bbox`: lower bound ≤ x ≤ upper bound and lower bound ≤ y ≤
upper bound, componentwise. -/
theorem C1_bbox_encloses_coordinates {tag : String} {p : CoordPayload}
    {g : GeomObj} (h : mkGeometry tag p = .ok g) (hnp : g.gtype ≠ "Point") :
    ∀ pt ∈ pairsOf g.coords, inBBoxV g.bbox pt := by
  have hfields := mkGeometry_ok_fields h
  unfold mkGeometry at h
  split_ifs at h with h1 h2 h3 h4 h5 h6
  · exact absurd (hfields.1.trans h1) hnp
  · cases p with
    | c2 rings =>
        cases hf : ringsFold rings initXBox with
        | none => simp only [hf] at h; exact Except.noConfusion h
        | some pr =>
            obtain ⟨r, bs⟩ := pr
            simp only [hf] at h
            injection h with h
            subst h
            intro pt hpt
            simp only [pairsOf] at hpt
            rw [List.mem_flatten] at hpt
            obtain ⟨ring, hring, hpt⟩ := hpt
            exact ringsFold_bounds rings _ _ _ hf ring hring pt hpt
    | c0 c => exact Except.noConfusion h
    | c1 cs => exact Except.noConfusion h
    | c3 ps => exact Except.noConfusion h
  · cases p with
    | c1 cs =>
        cases hf : ring_bbox cs with
        | none => simp only [hf] at h; exact Except.noConfusion h
        | some b =>
            simp only [hf] at h
            injection h with h
            subst h
            intro pt hpt
            exact ring_bbox_bounds hf hpt
    | c0 c => exact Except.noConfusion h
    | c2 css => exact Except.noConfusion h
    | c3 ps => exact Except.noConfusion h
  · cases p with
    | c1 cs =>
        cases hf : multipoint_bbox cs with
        | none => simp only [hf] at h; exact Except.noConfusion h
        | some b =>
            simp only [hf] at h
            injection h with h
            subst h
            intro pt hpt
            rw [multipoint_bbox_eq_ring_bbox] at hf
            exact ring_bbox_bounds hf hpt
    | c0 c => exact Except.noConfusion h
    | c2 css => exact Except.noConfusion h
    | c3 ps => exact Except.noConfusion h
  · cases p with
    | c2 css =>
        cases hf : ringsFold css initXBox with
        | none => simp only [hf] at h; exact Except.noConfusion h
        | some pr =>
            obtain ⟨r, bs⟩ := pr
            simp only [hf] at h
            injection h with h
            subst h
            intro pt hpt
            simp only [pairsOf] at hpt
            rw [List.mem_flatten] at hpt
            obtain ⟨ring, hring, hpt⟩ := hpt
            exact ringsFold_bounds css _ _ _ hf ring hring pt hpt
    | c0 c => exact Except.noConfusion h
    | c1 cs => exact Except.noConfusion h
    | c3 ps => exact Except.noConfusion h
  · cases p with
    | c3 ps =>
        cases hf : mpFold ps initXBox with
        | none => simp only [hf] at h; exact Except.noConfusion h
        | some pr =>
            obtain ⟨r, bss⟩ := pr
            simp only [hf] at h
            injection h with h
            subst h
            intro pt hpt
            simp only [pairsOf] at hpt
            rw [List.mem_flatten] at hpt
            obtain ⟨q, hq, hptq⟩ := hpt
            rw [List.mem_map] at hq
            obtain ⟨poly, hpoly, rfl⟩ := hq
            rw [List.mem_flatten] at hptq
            obtain ⟨ring, hring, hpt2⟩ := hptq
            exact mpFold_bounds ps _ _ _ hf poly hpoly ring hring pt hpt2
    | c0 c => exact Except.noConfusion h
    | c1 cs => exact Except.noConfusion h
    | c2 css => exact Except.noConfusion h

/-- Witness for C1 at a concrete LineString. -/
theorem C1_bbox_encloses_coordinates_witness :
    inBBoxV (BBoxV.finB (1, 2, 3, 4)) ((3 : ℚ), (2 : ℚ)) := by
  have h : mkGeometry "LineString" (.c1 [((1 : ℚ), (4 : ℚ)), (3, 2)]) =
      .ok ⟨"LineString", .c1 [(1, 4), (3, 2)], .finB (1, 2, 3, 4), .noneA⟩ := by
    rfl
  have := C1_bbox_encloses_coordinates h (by decide) ((3 : ℚ), (2 : ℚ))
    (by simp [pairsOf])
  exact this

/-- C7: the bbox of a successfully constructed MultiPolygon is the
componentwise union (minimum of the minima, maximum of the maxima, folded
from the infinite seed) of the `ring_bbox` of every ring of every member
polygon, and the nested per-polygon, per-ring boxes are retained in the
`bboxes` auxiliary field in the same nesting order. -/
theorem C7_multipolygon_bbox_union {ps : List (List (List Pt))} {g : GeomObj}
    (h : mkGeometry "MultiPolygon" (.c3 ps) = .ok g) :
    ∃ bss, mapO (mapO ring_bbox) ps = some bss ∧
      g.bbox = .xB (unionOfBoxes bss.flatten) ∧
      g.bboxes = .mpolyA bss := by
  unfold mkGeometry at h
  simp only [reduceIte] at h
  cases hf : mpFold ps initXBox with
  | none => simp only [hf] at h; exact Except.noConfusion h
  | some pr =>
      obtain ⟨r, bss⟩ := pr
      simp only [hf] at h
      injection h with h
      subst h
      obtain ⟨h1, h2⟩ := mpFold_flatten ps _ _ _ hf
      exact ⟨bss, h1, by rw [h2, foldl_unionStep_initXBox], rfl⟩

/-- Witness for C7 at a concrete two-polygon MultiPolygon. -/
theorem C7_multipolygon_bbox_union_witness :
    ∃ bss,
      mapO (mapO ring_bbox)
        [[[((0 : ℚ), (0 : ℚ)), (1, 1)]], [[(2, 2), (3, 3)]]] = some bss ∧
      (BBoxV.xB (qx 0, qx 0, qx 3, qx 3)) = .xB (unionOfBoxes bss.flatten) ∧
      (AuxBoxes.mpolyA [[(0, 0, 1, 1)], [(2, 2, 3, 3)]]) = .mpolyA bss := by
  exact @C7_multipolygon_bbox_union
    [[[((0 : ℚ), (0 : ℚ)), (1, 1)]], [[(2, 2), (3, 3)]]]
    ⟨"MultiPolygon", .c3 [[[(0, 0), (1, 1)]], [[(2, 2), (3, 3)]]],
      .xB (qx 0, qx 0, qx 3, qx 3), .mpolyA [[(0, 0, 1, 1)], [(2, 2, 3, 3)]]⟩
    (by rfl)

/-- C5 counterexample: a LineString built from an empty coordinate sequence
does not yield the infinite sentinel box — its construction fails
(`min([])` raises ValueError), so the claim's universal statement over every
variant is false. -/
theorem C5_counterexample_empty_linestring_fails :
    mkGeometry "LineString" (.c1 []) = .error .buildError := by rfl

/-- C5 amended: an empty top-level coordinate sequence yields the infinite
sentinel bbox `(+inf, +inf, -inf, -inf)` without failing for Polygon,
MultiPolygon and MultiLineString (in particular a polygon with zero rings
does not raise); but for LineString and MultiPoint an empty coordinate
sequence makes construction fail, and a Point's bbox is its raw coordinates
value rather than the sentinel. -/
theorem C5_empty_coordinates_by_variant :
    mkGeometry "Polygon" (.c2 []) =
        .ok ⟨"Polygon", .c2 [], .xB (⊤, ⊤, ⊥, ⊥), .polyA []⟩ ∧
    mkGeometry "MultiPolygon" (.c3 []) =
        .ok ⟨"MultiPolygon", .c3 [], .xB (⊤, ⊤, ⊥, ⊥), .mpolyA []⟩ ∧
    mkGeometry "MultiLineString" (.c2 []) =
        .ok ⟨"MultiLineString", .c2 [], .xB (⊤, ⊤, ⊥, ⊥), .noneA⟩ ∧
    mkGeometry "LineString" (.c1 []) = .error .buildError ∧
    mkGeometry "MultiPoint" (.c1 []) = .error .buildError ∧
    mkGeometry "Point" (.c1 []) =
        .ok ⟨"Point", .c1 [], .rawB (.c1 []), .noneA⟩ := by
  exact ⟨rfl, rfl, rfl, rfl, rfl, rfl⟩

theorem listGetE_ok {α : Type} {l : List α} {i : ℕ} {a : α}
    (h : listGetE l i = .ok a) : l.get? i = some a := by
  unfold listGetE at h
  cases hl : l.get? i with
  | none => simp only [hl] at h; exact Except.noConfusion h
  | some b =>
      simp only [hl, Except.ok.injEq] at h
      rw [h]

theorem propGet_ok {f : Feature} {k : String} {v : PropVal}
    (h : propGet f k = .ok v) : f.props.lookup k = some v := by
  unfold propGet at h
  cases hl : f.props.lookup k with
  | none => simp only [hl] at h; exact Except.noConfusion h
  | some w =>
      simp only [hl, Except.ok.injEq] at h
      rw [h]

theorem mapE_ok_mem {α β : Type} : ∀ (l : List α) (f : α → Except Err β)
    (bs : List β), mapE f l = .ok bs → ∀ b ∈ bs, ∃ a ∈ l, f a = .ok b
  | [], _, bs, h, b, hb => by
      simp only [mapE, Except.ok.injEq] at h
      rw [← h] at hb
      cases hb
  | a :: as, f, bs, h, b, hb => by
      cases hfa : f a with
      | error e => simp [mapE, hfa] at h
      | ok b0 =>
          cases hrec : mapE f as with
          | error e => simp [mapE, hfa, hrec] at h
          | ok bs0 =>
              simp only [mapE, hfa, hrec, Except.ok.injEq] at h
              rw [← h] at hb
              rcases List.mem_cons.1 hb with hh | hh
              · exact ⟨a, List.mem_cons_self a as, hh ▸ hfa⟩
              · obtain ⟨a2, ha2, hfa2⟩ := mapE_ok_mem as f bs0 hrec b hh
                exact ⟨a2, List.mem_cons_of_mem a ha2, hfa2⟩

theorem mapE_ok_forall {α β : Type} : ∀ (l : List α) (f : α → Except Err β)
    (bs : List β), mapE f l = .ok bs → ∀ a ∈ l, ∃ b, f a = .ok b
  | [], _, _, _, a, ha => absurd ha (List.not_mem_nil a)
  | a0 :: as, f, bs, h, a, ha => by
      cases hfa : f a0 with
      | error e => simp [mapE, hfa] at h
      | ok b0 =>
          cases hrec : mapE f as with
          | error e => simp [mapE, hfa, hrec] at h
          | ok bs0 =>
              rcases List.mem_cons.1 ha with hh | hh
              · exact ⟨b0, hh ▸ hfa⟩
              · exact mapE_ok_forall as f bs0 hrec a hh

theorem mapE_singleton {α β : Type} {g : α → Except Err β} {k : α}
    {row : List β} (h : mapE g [k] = .ok row) :
    ∃ v, g k = .ok v ∧ row = [v] := by
  cases hg : g k with
  | error e => simp [mapE, hg] at h
  | ok v =>
      simp only [mapE, hg, Except.ok.injEq] at h
      exact ⟨v, rfl, h.symm⟩

theorem flatten_singletons_get : ∀ (rows : List (List PropVal)),
    (∀ r ∈ rows, ∃ v, r = [v]) →
    ∀ (i : ℕ) (v : PropVal),
      rows.flatten.get? i = some v ↔ rows.get? i = some [v]
  | [], _, i, v => by simp
  | r :: rows, h, i, v => by
      obtain ⟨w, hw⟩ := h r (List.mem_cons_self r rows)
      subst hw
      cases i with
      | zero => simp
      | succ i0 =>
          simp only [List.flatten_cons, List.singleton_append, List.get?]
          exact flatten_singletons_get rows
            (fun x hx => h x (List.mem_cons_of_mem _ hx)) i0 v

theorem bind_ok_right {α : Type} (e : Except Err α) :
    Except.bind e Except.ok = e := by
  cases e <;> rfl

theorem mapE_listGetE_range {α : Type} (l : List α) :
    mapE (listGetE l) (List.range l.length) = .ok l := by
  have h1 : mapE (listGetE l) (List.range l.length)
      = mapE (fun i => Except.bind (listGetE l i) Except.ok)
          (List.range l.length) :=
    mapE_congr _ _ _ (fun i _ => (bind_ok_right _).symm)
  rw [h1, mapE_range_bind]
  have h2 := mapE_ok_map (fun a : α => a) l
  simpa using h2

theorem mapE_geometry_range (l : List Feature) :
    mapE (fun i => Except.bind (listGetE l i)
      (fun f => .ok f.geometry)) (List.range l.length)
      = .ok (l.map (fun f => f.geometry)) := by
  rw [mapE_range_bind]
  exact mapE_ok_map _ l

/-- Positions of a successfully materialised property column point back to the
features they were read from. -/
theorem propColumn_spec {fc : FeatureCollection} {k : String}
    {col : List PropVal} (h : propColumn fc k = .ok col) :
    ∀ (i : ℕ) (v : PropVal), col.get? i = some v →
      ∃ f, fc.features.get? i = some f ∧ f.props.lookup k = some v := by
  unfold propColumn at h
  cases hrows : getPropertiesAsLists fc [k] with
  | error e => simp only [hrows] at h; exact Except.noConfusion h
  | ok rows =>
      simp only [hrows, Except.ok.injEq] at h
      unfold getPropertiesAsLists at hrows
      have hsing : ∀ r ∈ rows, ∃ v, r = [v] := by
        intro r hr
        obtain ⟨a, _, hfa⟩ := mapE_ok_mem _ _ _ hrows r hr
        cases hga : listGetE fc.features a with
        | error e => rw [hga] at hfa; exact Except.noConfusion hfa
        | ok f =>
            rw [hga] at hfa
            obtain ⟨v, _, hrv⟩ := mapE_singleton hfa
            exact ⟨v, hrv⟩
      intro i v hv
      rw [← h] at hv
      rw [flatten_singletons_get rows hsing i v] at hv
      obtain ⟨a, ha, hfa⟩ := mapE_ok_get _ _ _ hrows i [v] hv
      have hai : a = i := by
        have hlt : i < (List.range fc.n_features).length := by
          by_contra hge
          rw [List.get?_eq_none.2 (le_of_not_lt hge)] at ha
          exact Option.noConfusion ha
        rw [List.length_range] at hlt
        rw [List.get?_range hlt] at ha
        exact (Option.some.injEq _ _ ▸ ha).symm
      subst hai
      cases hga : listGetE fc.features a with
      | error e => rw [hga] at hfa; exact Except.noConfusion hfa
      | ok f =>
          rw [hga] at hfa
          obtain ⟨v2, hv2, hrow⟩ := mapE_singleton hfa
          have hvv : v2 = v := by
            injection hrow with h1 _
            exact h1.symm
          subst hvv
          exact ⟨f, listGetE_ok hga, propGet_ok hv2⟩

/-- Shared helper: the setter on a duplicated column warns and returns the
state untouched. -/
theorem setIdVariable_dup {fc : FeatureCollection} {k : String}
    {vals : List PropVal} (hcol : propColumn fc k = .ok vals)
    (hdup : ¬ vals.Nodup) :
    setIdVariable fc (some k) = .ok (fc, true) := by
  unfold setIdVariable
  simp only [hcol]
  have hu : ¬ is_unique vals = true := fun hu => hdup ((is_unique_iff vals).1 hu)
  rw [if_neg hu]

/-- C3: assigning a property key whose column of values across the features
is not pairwise distinct to `idVariable` emits a warning (the returned flag),
does not raise (the call returns `ok`), and leaves the whole collection —
including the observable idVariable state, whether unassigned, None or a
stored key — exactly as it was. -/
theorem C3_duplicate_idVariable_warns {fc : FeatureCollection} {k : String}
    {vals : List PropVal} (hcol : propColumn fc k = .ok vals)
    (hdup : ¬ vals.Nodup) :
    setIdVariable fc (some k) = .ok (fc, true) :=
  setIdVariable_dup hcol hdup

/-- Witness for C3 on a two-feature collection with a duplicated id column. -/
theorem C3_duplicate_idVariable_warns_witness :
    setIdVariable
      ⟨2, [⟨⟨"Point", .c0 (0, 0), .rawB (.c0 (0, 0)), .noneA⟩,
            [("id", .pnum 5)]⟩,
           ⟨⟨"Point", .c0 (0, 0), .rawB (.c0 (0, 0)), .noneA⟩,
            [("id", .pnum 5)]⟩], some none⟩ (some "id")
      = .ok (⟨2, [⟨⟨"Point", .c0 (0, 0), .rawB (.c0 (0, 0)), .noneA⟩,
            [("id", .pnum 5)]⟩,
           ⟨⟨"Point", .c0 (0, 0), .rawB (.c0 (0, 0)), .noneA⟩,
            [("id", .pnum 5)]⟩], some none⟩, true) := by
  exact C3_duplicate_idVariable_warns (by rfl) (by decide)

/-- C10: constructing a collection whose requested idVariable column has
duplicate values takes the warning branch, which never stores anything in the
private slot: construction succeeds with the slot still unassigned, and a
subsequent read of `idVariable` fails with AttributeError instead of
returning None. -/
theorem C10_init_duplicate_unassigned {records : List Record} {k : String}
    {fs : List Feature} {vals : List PropVal}
    (hb : buildFeatures records = .ok fs)
    (hcol : propColumn ⟨fs.length, fs, none⟩ k = .ok vals)
    (hdup : ¬ vals.Nodup) :
    featureCollectionInit records (some k) = .ok ⟨fs.length, fs, none⟩ ∧
    getIdVariable ⟨fs.length, fs, none⟩ = .error .attributeError := by
  constructor
  · unfold featureCollectionInit
    simp only [hb, setIdVariable_dup hcol hdup]
  · rfl

/-- Witness for C10 on a two-record input with a duplicated id column. -/
theorem C10_init_duplicate_unassigned_witness :
    featureCollectionInit
      [⟨"Point", .c0 (0, 0), [("id", .pnum 5)], none⟩,
       ⟨"Point", .c0 (0, 0), [("id", .pnum 5)], none⟩] (some "id")
      = .ok ⟨2, [⟨⟨"Point", .c0 (0, 0), .rawB (.c0 (0, 0)), .noneA⟩,
            [("id", .pnum 5)]⟩,
           ⟨⟨"Point", .c0 (0, 0), .rawB (.c0 (0, 0)), .noneA⟩,
            [("id", .pnum 5)]⟩], none⟩ ∧
    getIdVariable ⟨2, [⟨⟨"Point", .c0 (0, 0), .rawB (.c0 (0, 0)), .noneA⟩,
            [("id", .pnum 5)]⟩,
           ⟨⟨"Point", .c0 (0, 0), .rawB (.c0 (0, 0)), .noneA⟩,
            [("id", .pnum 5)]⟩], none⟩ = .error .attributeError := by
  exact @C10_init_duplicate_unassigned
    [⟨"Point", .c0 (0, 0), [("id", .pnum 5)], none⟩,
     ⟨"Point", .c0 (0, 0), [("id", .pnum 5)], none⟩] "id"
    [⟨⟨"Point", .c0 (0, 0), .rawB (.c0 (0, 0)), .noneA⟩, [("id", .pnum 5)]⟩,
     ⟨⟨"Point", .c0 (0, 0), .rawB (.c0 (0, 0)), .noneA⟩, [("id", .pnum 5)]⟩]
    [.pnum 5, .pnum 5] (by rfl) (by rfl) (by decide)

/-- C4: with `idVariable` set to key `k` and a value `v` present in the
materialised id column, `getFeatureIds [v]` returns the singleton of the
position of the first occurrence of `v` in id order, and the feature stored
at that position has `v` as its `k` property. -/
theorem C4_getFeatureIds_first_occurrence {fc : FeatureCollection}
    {k : String} {col : List PropVal} {v : PropVal}
    (hid : fc.idVar = some (some k))
    (hcol : getIdVariableOrder fc = .ok col)
    (hv : v ∈ col) :
    ∃ i, getFeatureIds fc [v] = .ok [i] ∧
      col.get? i = some v ∧ (∀ j, j < i → col.get? j ≠ some v) ∧
      ∃ f, fc.features.get? i = some f ∧ f.props.lookup k = some v := by
  obtain ⟨i, hi⟩ := listIndex_some_of_mem hv
  refine ⟨i, ?_, listIndex_get col v i hi, listIndex_min col v i hi, ?_⟩
  · unfold getFeatureIds
    simp only [hcol]
    simp [mapE, indexIn, hi]
  · have hpc : propColumn fc k = .ok col := by
      unfold getIdVariableOrder at hcol
      simp only [hid] at hcol
      exact hcol
    exact propColumn_spec hpc i v (listIndex_get col v i hi)

/-- Witness for C4 on a three-feature collection with id column 10, 20, 30. -/
theorem C4_getFeatureIds_first_occurrence_witness :
    ∃ i, getFeatureIds
      ⟨3, [⟨⟨"Point", .c0 (0, 0), .rawB (.c0 (0, 0)), .noneA⟩,
            [("id", .pnum 10)]⟩,
           ⟨⟨"Point", .c0 (1, 1), .rawB (.c0 (1, 1)), .noneA⟩,
            [("id", .pnum 20)]⟩,
           ⟨⟨"Point", .c0 (2, 2), .rawB (.c0 (2, 2)), .noneA⟩,
            [("id", .pnum 30)]⟩], some (some "id")⟩ [.pnum 20] = .ok [i] ∧
      ([.pnum 10, .pnum 20, .pnum 30] : List PropVal).get? i =
        some (.pnum 20) ∧
      (∀ j, j < i →
        ([.pnum 10, .pnum 20, .pnum 30] : List PropVal).get? j ≠
          some (.pnum 20)) ∧
      ∃ f, ([⟨⟨"Point", .c0 (0, 0), .rawB (.c0 (0, 0)), .noneA⟩,
            [("id", .pnum 10)]⟩,
           ⟨⟨"Point", .c0 (1, 1), .rawB (.c0 (1, 1)), .noneA⟩,
            [("id", .pnum 20)]⟩,
           ⟨⟨"Point", .c0 (2, 2), .rawB (.c0 (2, 2)), .noneA⟩,
            [("id", .pnum 30)]⟩] : List Feature).get? i = some f ∧
        f.props.lookup "id" = some (.pnum 20) := by
  exact @C4_getFeatureIds_first_occurrence
    ⟨3, [⟨⟨"Point", .c0 (0, 0), .rawB (.c0 (0, 0)), .noneA⟩,
          [("id", .pnum 10)]⟩,
         ⟨⟨"Point", .c0 (1, 1), .rawB (.c0 (1, 1)), .noneA⟩,
          [("id", .pnum 20)]⟩,
         ⟨⟨"Point", .c0 (2, 2), .rawB (.c0 (2, 2)), .noneA⟩,
          [("id", .pnum 30)]⟩], some (some "id")⟩ "id"
    [.pnum 10, .pnum 20, .pnum 30] (.pnum 20)
    (by rfl) (by rfl) (by decide)

theorem indexIn_ok_mem {col : List PropVal} {v : PropVal} {i : ℕ}
    (h : indexIn col v = .ok i) : v ∈ col := by
  unfold indexIn at h
  cases hl : listIndex v col with
  | none => simp only [hl] at h; exact Except.noConfusion h
  | some j => exact List.get?_mem (listIndex_get col v j hl)

theorem mapE_indexIn_error_iff : ∀ (args col : List PropVal),
    mapE (indexIn col) args = .error .valueNotFound ↔ ∃ v ∈ args, v ∉ col
  | [], col => by simp [mapE]
  | a :: args, col => by
      cases ha : indexIn col a with
      | error e =>
          have he : e = .valueNotFound ∧ a ∉ col := by
            unfold indexIn at ha
            cases hl : listIndex a col with
            | some i => simp only [hl] at ha; exact Except.noConfusion ha
            | none =>
                simp only [hl, Except.error.injEq] at ha
                exact ⟨ha.symm, (listIndex_none_iff a col).1 hl⟩
          simp only [mapE, ha, he.1]
          constructor
          · intro _
            exact ⟨a, List.mem_cons_self a args, he.2⟩
          · intro _
            trivial
      | ok i =>
          have hmem : a ∈ col := indexIn_ok_mem ha
          cases hrec : mapE (indexIn col) args with
          | error e2 =>
              simp only [mapE, ha, hrec]
              constructor
              · intro hh
                injection hh with hh
                rw [hh] at hrec
                obtain ⟨v, hv, hvc⟩ := (mapE_indexIn_error_iff args col).1 hrec
                exact ⟨v, List.mem_cons_of_mem a hv, hvc⟩
              · rintro ⟨v, hv, hvc⟩
                rcases List.mem_cons.1 hv with hh | hh
                · subst hh
                  exact absurd hmem hvc
                · have h2 := (mapE_indexIn_error_iff args col).2 ⟨v, hh, hvc⟩
                  rw [h2] at hrec
                  injection hrec with h3
                  rw [h3]
          | ok is =>
              simp only [mapE, ha, hrec]
              constructor
              · intro hh
                exact Except.noConfusion hh
              · rintro ⟨v, hv, hvc⟩
                rcases List.mem_cons.1 hv with hh | hh
                · subst hh
                  exact absurd hmem hvc
                · obtain ⟨b, hb⟩ := mapE_ok_forall args _ is hrec v hh
                  exact absurd (indexIn_ok_mem hb) hvc

/-- C8: with `idVariable` set and the id column materialised, `getFeatureIds`
fails with ValueNotFound exactly when some requested value is absent from the
column; the query is a pure read, so the collection itself is untouched. -/
theorem C8_getFeatureIds_valueNotFound_iff {fc : FeatureCollection}
    {k : String} {col : List PropVal} {args : List PropVal}
    (_hid : fc.idVar = some (some k))
    (hcol : getIdVariableOrder fc = .ok col) :
    (getFeatureIds fc args = .error .valueNotFound ↔ ∃ v ∈ args, v ∉ col) := by
  unfold getFeatureIds
  simp only [hcol]
  exact mapE_indexIn_error_iff args col

/-- Witness for C8: requesting a missing value fails, and the equivalence is
instantiated at a concrete collection. -/
theorem C8_getFeatureIds_valueNotFound_iff_witness :
    (getFeatureIds
      ⟨2, [⟨⟨"Point", .c0 (0, 0), .rawB (.c0 (0, 0)), .noneA⟩,
            [("id", .pnum 1)]⟩,
           ⟨⟨"Point", .c0 (1, 1), .rawB (.c0 (1, 1)), .noneA⟩,
            [("id", .pnum 2)]⟩], some (some "id")⟩ [.pnum 7]
      = .error .valueNotFound ↔
      ∃ v ∈ [PropVal.pnum 7], v ∉ ([.pnum 1, .pnum 2] : List PropVal)) := by
  exact C8_getFeatureIds_valueNotFound_iff (by rfl) (by rfl)

/-- C9: with the stored feature count consistent with the feature table, an
empty list of requested values is falsy, so `getFeatures` and `getGeometries`
return all features (respectively geometries) in id order 0..n-1, exactly as
when the argument is omitted. -/
theorem C9_empty_args_all_features {fc : FeatureCollection}
    (wf : fc.n_features = fc.features.length) :
    getFeatures fc (some []) = .ok fc.features ∧
    getFeatures fc none = .ok fc.features ∧
    getGeometries fc (some []) =
      .ok (fc.features.map (fun f => f.geometry)) ∧
    getGeometries fc none = .ok (fc.features.map (fun f => f.geometry)) := by
  have e1 : getFeatures fc (some []) =
      mapE (listGetE fc.features) (List.range fc.n_features) := rfl
  have e2 : getFeatures fc none =
      mapE (listGetE fc.features) (List.range fc.n_features) := rfl
  have e3 : getGeometries fc (some []) =
      mapE (fun i => Except.bind (listGetE fc.features i)
        (fun f => .ok f.geometry)) (List.range fc.n_features) := rfl
  have e4 : getGeometries fc none =
      mapE (fun i => Except.bind (listGetE fc.features i)
        (fun f => .ok f.geometry)) (List.range fc.n_features) := rfl
  rw [e1, e2, e3, e4, wf]
  exact ⟨mapE_listGetE_range _, mapE_listGetE_range _,
    mapE_geometry_range _, mapE_geometry_range _⟩

/-- Witness for C9 on a concrete one-feature collection. -/
theorem C9_empty_args_all_features_witness :
    getFeatures ⟨1, [⟨⟨"Point", .c0 (0, 0), .rawB (.c0 (0, 0)), .noneA⟩,
        [("id", .pnum 1)]⟩], some none⟩ (some [])
      = .ok [⟨⟨"Point", .c0 (0, 0), .rawB (.c0 (0, 0)), .noneA⟩,
        [("id", .pnum 1)]⟩] ∧
    getFeatures ⟨1, [⟨⟨"Point", .c0 (0, 0), .rawB (.c0 (0, 0)), .noneA⟩,
        [("id", .pnum 1)]⟩], some none⟩ none
      = .ok [⟨⟨"Point", .c0 (0, 0), .rawB (.c0 (0, 0)), .noneA⟩,
        [("id", .pnum 1)]⟩] ∧
    getGeometries ⟨1, [⟨⟨"Point", .c0 (0, 0), .rawB (.c0 (0, 0)), .noneA⟩,
        [("id", .pnum 1)]⟩], some none⟩ (some [])
      = .ok [⟨"Point", .c0 (0, 0), .rawB (.c0 (0, 0)), .noneA⟩] ∧
    getGeometries ⟨1, [⟨⟨"Point", .c0 (0, 0), .rawB (.c0 (0, 0)), .noneA⟩,
        [("id", .pnum 1)]⟩], some none⟩ none
      = .ok [⟨"Point", .c0 (0, 0), .rawB (.c0 (0, 0)), .noneA⟩] := by
  exact C9_empty_args_all_features (by rfl)

/-- C2: for every successfully constructed collection, the saved structure
carries no bbox entry, and loading it back succeeds and yields, at every
integer id, a feature with the same geometry type tag, the same coordinates
structure and the same properties mapping as the original. -/
theorem C2_saveAsGeoJson_roundtrip {records : List Record}
    {idv : Option String} {fc : FeatureCollection}
    (h : featureCollectionInit records idv = .ok fc) :
    (∀ r ∈ saveAsGeoJson fc, r.rawBbox = none) ∧
    ∃ fc2, featureCollectionInit (saveAsGeoJson fc) none = .ok fc2 ∧
      fc2.n_features = fc.n_features ∧
      ∀ (i : ℕ) (f : Feature), fc.features.get? i = some f →
        ∃ f2, fc2.features.get? i = some f2 ∧
          f2.geometry.gtype = f.geometry.gtype ∧
          f2.geometry.coords = f.geometry.coords ∧
          f2.props = f.props := by
  obtain ⟨fs, hb, hfeat, hn⟩ := init_ok_spec h
  constructor
  · intro r hr
    unfold saveAsGeoJson at hr
    rw [List.mem_map] at hr
    obtain ⟨f, _, rfl⟩ := hr
    rfl
  · have hgeom := buildFeatures_geomOk records fs hb
    have hsave : buildFeatures (saveAsGeoJson fc) = .ok fs := by
      unfold saveAsGeoJson
      rw [hfeat]
      exact buildFeatures_save fs hgeom
    refine ⟨⟨fs.length, fs, some none⟩, ?_, hn.symm, ?_⟩
    · unfold featureCollectionInit
      simp only [hsave]
      rfl
    · intro i f hf
      rw [hfeat] at hf
      exact ⟨f, hf, rfl, rfl, rfl⟩

/-- Witness for C2 on a one-feature collection. -/
theorem C2_saveAsGeoJson_roundtrip_witness :
    (∀ r ∈ saveAsGeoJson ⟨1, [⟨⟨"Point", .c0 (1, 2), .rawB (.c0 (1, 2)),
        .noneA⟩, [("a", .pnum 3)]⟩], some none⟩, r.rawBbox = none) ∧
    ∃ fc2, featureCollectionInit
        (saveAsGeoJson ⟨1, [⟨⟨"Point", .c0 (1, 2), .rawB (.c0 (1, 2)),
          .noneA⟩, [("a", .pnum 3)]⟩], some none⟩) none = .ok fc2 ∧
      fc2.n_features = (1 : ℕ) ∧
      ∀ (i : ℕ) (f : Feature),
        [⟨⟨"Point", .c0 (1, 2), .rawB (.c0 (1, 2)), .noneA⟩,
          [("a", .pnum 3)]⟩].get? i = some f →
        ∃ f2, fc2.features.get? i = some f2 ∧
          f2.geometry.gtype = f.geometry.gtype ∧
          f2.geometry.coords = f.geometry.coords ∧
          f2.props = f.props := by
  exact @C2_saveAsGeoJson_roundtrip
    [⟨"Point", .c0 (1, 2), [("a", .pnum 3)], none⟩] none
    ⟨1, [⟨⟨"Point", .c0 (1, 2), .rawB (.c0 (1, 2)), .noneA⟩,
      [("a", .pnum 3)]⟩], some none⟩ (by rfl)

theorem mkGeometry_unknown {tag : String} (h : ¬ knownTag tag)
    (p : CoordPayload) :
    mkGeometry tag p = .error (.unknownGeometryType tag) := by
  unfold mkGeometry
  rw [if_neg (fun hh => h (Or.inl hh)),
      if_neg (fun hh => h (Or.inr (Or.inl hh))),
      if_neg (fun hh => h (Or.inr (Or.inr (Or.inl hh)))),
      if_neg (fun hh => h (Or.inr (Or.inr (Or.inr (Or.inl hh))))),
      if_neg (fun hh => h (Or.inr (Or.inr (Or.inr (Or.inr (Or.inl hh)))))),
      if_neg (fun hh => h (Or.inr (Or.inr (Or.inr (Or.inr (Or.inr hh))))))]

theorem buildFeatures_unknown : ∀ (pre : List Record) (r : Record)
    (post : List Record), ¬ knownTag r.gtype →
    (∀ q ∈ pre, ∃ g, mkGeometry q.gtype q.coords = .ok g) →
    buildFeatures (pre ++ r :: post) =
      .error (.unknownGeometryType r.gtype)
  | [], r, post, hbad, _ => by
      simp only [List.nil_append, buildFeatures,
        mkGeometry_unknown hbad r.coords]
  | q :: pre, r, post, hbad, hpre => by
      obtain ⟨g, hg⟩ := hpre q (List.mem_cons_self q pre)
      have hrest := buildFeatures_unknown pre r post hbad
        (fun x hx => hpre x (List.mem_cons_of_mem q hx))
      simp only [List.cons_append, buildFeatures, hg, List.append_eq, hrest]

theorem buildFeatures_unknown_aborts : ∀ (pre : List Record) (r : Record)
    (post : List Record), ¬ knownTag r.gtype →
    ∃ e, buildFeatures (pre ++ r :: post) = .error e
  | [], r, post, hbad => by
      refine ⟨.unknownGeometryType r.gtype, ?_⟩
      simp only [List.nil_append, buildFeatures,
        mkGeometry_unknown hbad r.coords]
  | q :: pre, r, post, hbad => by
      cases hg : mkGeometry q.gtype q.coords with
      | error e =>
          refine ⟨e, ?_⟩
          simp only [List.cons_append, buildFeatures, hg]
      | ok g =>
          obtain ⟨e, he⟩ := buildFeatures_unknown_aborts pre r post hbad
          refine ⟨e, ?_⟩
          simp only [List.cons_append, buildFeatures, hg, List.append_eq, he]

/-- C6 amended: an input containing a record with an unregistered geometry
type tag never yields a collection — construction fails unconditionally, so
no partially-built collection is exposed — and when every record before the
unknown-tag record constructs successfully, the failure is precisely
UnknownGeometryType for that tag.  (As stated over every input the original
claim fails, because a record failing earlier for a different reason
pre-empts the dispatcher error; see the counterexample.) -/
theorem C6_unknown_tag_construction_fails {pre post : List Record}
    {r : Record} {idv : Option String} (hbad : ¬ knownTag r.gtype) :
    (∃ e, featureCollectionInit (pre ++ r :: post) idv = .error e) ∧
    ((∀ q ∈ pre, ∃ g, mkGeometry q.gtype q.coords = .ok g) →
      featureCollectionInit (pre ++ r :: post) idv =
        .error (.unknownGeometryType r.gtype)) := by
  constructor
  · obtain ⟨e, he⟩ := buildFeatures_unknown_aborts pre r post hbad
    refine ⟨e, ?_⟩
    unfold featureCollectionInit
    simp only [he]
  · intro hpre
    unfold featureCollectionInit
    simp only [buildFeatures_unknown pre r post hbad hpre]

/-- C6 counterexample: an input whose first record is a LineString with empty
coordinates and whose second record has the unknown tag Garbage fails with
the bbox build error (ValueError), not with UnknownGeometryType — so
construction with an unknown-tag record present does not always fail with
UnknownGeometryType. -/
theorem C6_counterexample_earlier_failure_preempts :
    featureCollectionInit
      [⟨"LineString", .c1 [], [], none⟩, ⟨"Garbage", .c0 (0, 0), [], none⟩]
      none = .error .buildError ∧
    ¬ knownTag "Garbage" ∧
    (∀ t, featureCollectionInit
      [⟨"LineString", .c1 [], [], none⟩, ⟨"Garbage", .c0 (0, 0), [], none⟩]
      none ≠ .error (.unknownGeometryType t)) := by
  refine ⟨rfl, by decide, ?_⟩
  intro t h
  injection h with h2
  exact Err.noConfusion h2

/-- Witness for C6 on a well-formed Point record followed by an unknown tag:
construction fails, and since the preceding record builds, the error is
UnknownGeometryType. -/
theorem C6_unknown_tag_construction_fails_witness :
    (∃ e, featureCollectionInit
      [⟨"Point", .c0 (0, 0), [], none⟩, ⟨"Garbage", .c0 (1, 1), [], none⟩]
      none = .error e) ∧
    ((∀ q ∈ [(⟨"Point", .c0 (0, 0), [], none⟩ : Record)],
        ∃ g, mkGeometry q.gtype q.coords = .ok g) →
      featureCollectionInit
        [⟨"Point", .c0 (0, 0), [], none⟩, ⟨"Garbage", .c0 (1, 1), [], none⟩]
        none = .error (.unknownGeometryType "Garbage")) := by
  exact @C6_unknown_tag_construction_fails
    [⟨"Point", .c0 (0, 0), [], none⟩] []
    ⟨"Garbage", .c0 (1, 1), [], none⟩ none (by decide)

end Collection
